import Mathlib

/-!
Verification of the knox key-management client and server against its
natural-language specification.  Pure functions are translated directly from
the Go sources; effectful dependencies (file reads, HTTP round trips, random
generators, wall-clock time) are passed in explicitly as function arguments.
Go byte strings are modelled as `List Nat`; machine integers are `Nat`/`Int`.
The core `knox` package (the data model: `AccessType`, `ACL`, `KeyVersion`,
`Key` and their methods) ships only its tests and callers here, so those
definitions are modelled from the spec, constrained by the package tests.
-/

namespace Knox

/-- Go byte slices (`[]byte`) and Go strings used as byte containers. -/
abbrev Bytes := List Nat

/-- Modelled from the spec: `AccessType` (ordered): None < Read < Write < Admin
(the `knox` package source holding this enum is not in the sources; the
behaviour is fixed by `TestAccessTypeCanAccess`). -/
inductive AccessType
| None
| Read
| Write
| Admin
deriving DecidableEq

/-- Rank of an access type in the order None < Read < Write < Admin. -/
def AccessType.rank : AccessType → Nat
| AccessType.None => 0
| AccessType.Read => 1
| AccessType.Write => 2
| AccessType.Admin => 3

/-- Modelled from the spec: "Admin implies Write implies Read implies None.
Comparison is used when checking does granted level cover required level."
Matches `TestAccessTypeCanAccess` in the package tests. -/
def AccessType.CanAccess (granted required : AccessType) : Bool :=
  required.rank ≤ granted.rank

/-- Modelled from the spec: `PrincipalType` for ACL entries (the `knox`
package source holding this enum is not in the sources). -/
inductive PrincipalType
| User
| UserGroup
| Machine
| MachinePrefix
| Service
| ServicePrefix
deriving DecidableEq

/-- Modelled from the spec: `Access { type, id, accessType }`. -/
structure Access where
  type : PrincipalType
  id : String
  accessType : AccessType
deriving DecidableEq

/-- An ACL is an ordered sequence of `Access` entries. -/
abbrev ACL := List Access

/-- Modelled from the spec: `acl.add(access)`: if `access.accessType == None`,
remove any entry with the same `(type, id)`; else replace any entry with the
same `(type, id)` (last write wins), appending when no entry matches.
Behaviour fixed by `TestACLAdd` and `TestACLAddMultiple`. -/
def ACL.Add (acl : ACL) (a : Access) : ACL :=
  if a.accessType = AccessType.None then
    acl.filter (fun b => ¬(b.type = a.type ∧ b.id = a.id))
  else if acl.any (fun b => b.type = a.type && b.id = a.id) then
    acl.map (fun b => if b.type = a.type ∧ b.id = a.id then a else b)
  else acl ++ [a]

/-- Keys of an ACL entry: the `(type, id)` pair that must be unique. -/
def Access.key (a : Access) : PrincipalType × String := (a.type, a.id)

/-- Modelled from the spec: per-type principal id validators (non-empty id;
`Service` a well-formed spiffe URI; `ServicePrefix` additionally a trailing
slash and at least one path component). -/
def PrincipalType.IsValidPrincipal (t : PrincipalType) (id : String) : Bool :=
  match t with
  | PrincipalType.User => id ≠ ""
  | PrincipalType.UserGroup => id ≠ ""
  | PrincipalType.Machine => id ≠ ""
  | PrincipalType.MachinePrefix => id ≠ ""
  | PrincipalType.Service =>
    id.startsWith "spiffe://" &&
      (match (id.drop 9).splitOn "/" with
       | domain :: rest => domain ≠ "" && rest ≠ []
       | [] => false)
  | PrincipalType.ServicePrefix =>
    id.startsWith "spiffe://" && id.endsWith "/" &&
      (match (id.drop 9).splitOn "/" with
       | domain :: rest => domain ≠ "" && rest.length ≥ 2
       | [] => false)

/-- No two entries of the list share an element. -/
def nodupKeys : List (PrincipalType × String) → Bool
| [] => true
| k :: rest => (¬ rest.contains k) && nodupKeys rest

/-- Modelled from the spec: ACL invariants: no `None` entry, no duplicate
`(type, id)`, per-type id validators.  Behaviour fixed by `TestACLValidate`. -/
def ACL.Validate (acl : ACL) : Bool :=
  acl.all (fun a => a.accessType ≠ AccessType.None) &&
  nodupKeys (acl.map Access.key) &&
  acl.all (fun a => a.type.IsValidPrincipal a.id)

/-- Modelled from the spec: version statuses `Primary`, `Active`, `Inactive`. -/
inductive VersionStatus
| Primary
| Active
| Inactive
deriving DecidableEq

/-- Modelled from the spec:
`KeyVersion { id : u64, data : bytes, status, creationTime : i64 }`. -/
structure KeyVersion where
  id : Nat
  data : Bytes
  status : VersionStatus
  creationTime : Int
deriving DecidableEq

/-- A key version list is an ordered list of key versions. -/
abbrev KeyVersionList := List KeyVersion

/-- Canonical name of a version status, for the hash projection. -/
def VersionStatus.tag : VersionStatus → String
| VersionStatus.Primary => "Primary"
| VersionStatus.Active => "Active"
| VersionStatus.Inactive => "Inactive"

/-- Modelled from the spec: `Hash()` is a deterministic digest over the
order-sensitive `(id, status)` projection of the list; the protocol treats the
result as an opaque comparison token, so the digest is modelled as the
canonical serialization itself (deterministic, order-sensitive, injective on
the projection). -/
def KeyVersionList.Hash (kvl : KeyVersionList) : String :=
  String.intercalate "|" (kvl.map (fun v => toString v.id ++ ":" ++ v.status.tag))

/-- Modelled from the spec: `GetActive` returns all key versions that are not
`Inactive` (by `TestKVLGetActive` the `Primary` version is included). -/
def KeyVersionList.GetActive (kvl : KeyVersionList) : List KeyVersion :=
  kvl.filter (fun v => v.status ≠ VersionStatus.Inactive)

/-- Modelled from the spec: `GetPrimary` returns the primary key version
(`TestKVLGetPrimary`); the zero version when there is none. -/
def KeyVersionList.GetPrimary (kvl : KeyVersionList) : KeyVersion :=
  match kvl.find? (fun v => v.status = VersionStatus.Primary) with
  | some v => v
  | none => { id := 0, data := [], status := VersionStatus.Active, creationTime := 0 }

/-- Number of `Primary` versions in a list. -/
def primaryCount (kvl : KeyVersionList) : Nat :=
  (kvl.filter (fun v => v.status = VersionStatus.Primary)).length

/-- Modelled from the spec: version-list invariants: exactly one `Primary`,
all version ids unique (`TestKeyVersionListValidate`). -/
def KeyVersionList.Validate (kvl : KeyVersionList) : Bool :=
  primaryCount kvl = 1 && kvl.map KeyVersion.id = (kvl.map KeyVersion.id).dedup

/-- Characters legal in a knox key identifier: `[A-Za-z0-9_:.-]`. -/
def validKeyIDChar (c : Char) : Bool :=
  c.isAlphanum || c = '_' || c = ':' || c = '.' || c = '-'

/-- Modelled from the spec: a key id is a non-empty string of characters in
`[A-Za-z0-9_:.-]`. -/
def validKeyID (id : String) : Bool :=
  id ≠ "" && id.toList.all validKeyIDChar

/-- The knox `Key`.  The `acl` and `versionList` fields are `Option`s so that
the Go `nil` slices produced by partial JSON decoding are representable: the
client cache checks compare them against `nil`. -/
structure Key where
  id : String := ""
  acl : Option ACL := none
  versionList : Option KeyVersionList := none
  versionHash : String := ""
  path : String := ""
deriving DecidableEq, Inhabited

/-- Modelled from the spec: `Key.Validate()` checks all the data-model
invariants: legal id, valid ACL, valid version list, and
`versionHash == versions.Hash()` (behaviour fixed by `TestKeyValidate`, where
a key whose `VersionHash` is not the list hash fails to validate). -/
def Key.Validate (k : Key) : Bool :=
  validKeyID k.id &&
  ACL.Validate (k.acl.getD []) &&
  KeyVersionList.Validate (k.versionList.getD []) &&
  k.versionHash = KeyVersionList.Hash (k.versionList.getD [])

/-! ### Client-side cache reads (`src/client.go`) -/

/-- Go `path.Join(keyFolder, keyID)` for the non-empty, already-clean inputs
the client uses. -/
def pathJoin (a b : String) : String := a ++ "/" ++ b

/-- From `src/client.go` `HTTPClient.CacheGetKey`: reading and JSON-decoding
the per-key cache file is abstracted as `readFile : path ↦ parsed key or
error`; the decoded key keeps the `Path` preset before unmarshalling.  The
cached value is rejected exactly when the read or parse fails or the decoded
key has empty id, nil ACL, nil version list, or empty version hash. -/
def CacheGetKey (keyFolder : String) (readFile : String → Except String Key)
    (keyID : String) : Except String Key :=
  if keyFolder = "" then Except.error "no folder set for cached key"
  else
    match readFile (pathJoin keyFolder keyID) with
    | Except.error e => Except.error e
    | Except.ok k0 =>
      let k : Key := { k0 with path := pathJoin keyFolder keyID }
      if k.id = "" ∨ k.acl = none ∨ k.versionList = none ∨ k.versionHash = "" then
        Except.error "invalid key content for the cached key"
      else Except.ok k

/-- From `src/client.go` `HTTPClient.GetKey`: try the cache first, fall back
to the network on any cache error. -/
def GetKey (keyFolder : String) (readFile : String → Except String Key)
    (networkGetKey : String → Except String Key) (keyID : String) : Except String Key :=
  match CacheGetKey keyFolder readFile keyID with
  | Except.error _ => networkGetKey keyID
  | Except.ok k => Except.ok k

/-- A cache-file content that passes `CacheGetKey`'s format checks but fails
`Key.Validate()`: its `versionHash` is not its version list's `Hash()`. -/
def badCachedKey : Key :=
  { id := "k1"
    acl := some [⟨PrincipalType.Machine, "testmachine1", AccessType.Admin⟩]
    versionList := some [⟨1, [116], VersionStatus.Primary, 10⟩]
    versionHash := "INVALID_HASH" }

/-- C1 counterexample: with the cache file for `k1` decoding to
`badCachedKey` (whose `versionHash` differs from its version list's hash, so
it fails `Key.Validate()`), `HTTPClient.GetKey` returns the cached key
instead of rejecting it and falling back to the network GET. -/
theorem C1_counterexample :
    GetKey "cache" (fun _ => Except.ok badCachedKey)
        (fun _ => Except.error "network error") "k1"
      = Except.ok { badCachedKey with path := "cache/k1" } ∧
    Key.Validate { badCachedKey with path := "cache/k1" } = false := by
  constructor
  · rfl
  · rfl

/-- C1 (amended): `GetKey` first attempts the on-disk cache file and falls
back to a network GET exactly when `CacheGetKey` fails; a cached value is
rejected only by the format checks (read/parse failure, empty `KeyFolder`,
empty id, nil ACL, nil version list, or empty version hash) — `Key.Validate()`
is not consulted, so a well-formatted cached key is returned even when it
fails `Key.Validate()`. -/
theorem C1_cache_format_checks_only (kf : String) (rf : String → Except String Key)
    (net : String → Except String Key) (kid : String) :
    (∀ e, CacheGetKey kf rf kid = Except.error e → GetKey kf rf net kid = net kid) ∧
    (∀ k, CacheGetKey kf rf kid = Except.ok k → GetKey kf rf net kid = Except.ok k) ∧
    (∀ k, CacheGetKey kf rf kid = Except.ok k ↔
      (kf ≠ "" ∧ ∃ k0, rf (pathJoin kf kid) = Except.ok k0 ∧
        k = { k0 with path := pathJoin kf kid } ∧
        ¬(k.id = "" ∨ k.acl = none ∨ k.versionList = none ∨ k.versionHash = ""))) := by
  refine ⟨?_, ?_, ?_⟩
  · intro e he
    simp [GetKey, he]
  · intro k hk
    simp [GetKey, hk]
  · intro k
    unfold CacheGetKey
    by_cases hkf : kf = ""
    · simp [hkf]
    · simp only [if_neg hkf]
      cases hrf : rf (pathJoin kf kid) with
      | error e => simp [hkf]
      | ok k0 =>
        by_cases hfmt : ({ k0 with path := pathJoin kf kid } : Key).id = "" ∨
            ({ k0 with path := pathJoin kf kid } : Key).acl = none ∨
            ({ k0 with path := pathJoin kf kid } : Key).versionList = none ∨
            ({ k0 with path := pathJoin kf kid } : Key).versionHash = ""
        · simp only [if_pos hfmt]
          constructor
          · intro h; exact absurd h (by simp)
          · rintro ⟨-, k0', hk0', hk, hne⟩
            rw [Except.ok.injEq] at hk0'
            subst hk0'
            exact absurd (hk ▸ hfmt) hne
        · simp only [if_neg hfmt]
          constructor
          · intro h
            rw [Except.ok.injEq] at h
            exact ⟨hkf, k0, rfl, h.symm, h ▸ hfmt⟩
          · rintro ⟨-, k0', hk0', hk, -⟩
            rw [Except.ok.injEq] at hk0'
            subst hk0'
            rw [hk]

/-- C1 witness: the amended theorem at concrete inputs: an empty key folder
makes `GetKey` fall back to the network result. -/
theorem C1_cache_format_checks_only_witness :
    GetKey "" (fun _ => Except.error "no file") (fun _ => Except.ok badCachedKey) "k1"
      = Except.ok badCachedKey :=
  (C1_cache_format_checks_only "" (fun _ => Except.error "no file")
      (fun _ => Except.ok badCachedKey) "k1").1 "no folder set for cached key" rfl

/-! ### The embedded file client (`src/client.go` `fileClient`) -/

/-- From `src/client.go`: the in-memory state of the embedded `fileClient`
(the `sync.RWMutex` guards concurrent access and carries no data). -/
structure FileClient where
  keyID : String := ""
  primary : Bytes := []
  active : List Bytes := []
  keyObject : Key := {}
deriving Inhabited

/-- From `src/client.go` `fileClient.setValues`: note that `c.active` is
allocated with `make([]string, len(ks))` (length `len(ks)`, all empty
strings) and the loop then appends the data strings after them. -/
def FileClient.setValues (c : FileClient) (key : Key) : FileClient :=
  let ks := KeyVersionList.GetActive (key.versionList.getD [])
  { c with
    keyObject := key
    primary := (KeyVersionList.GetPrimary (key.versionList.getD [])).data
    active := List.replicate ks.length ([] : Bytes) ++ ks.map KeyVersion.data }

/-- From `src/client.go` `fileClient.GetActive`. -/
def FileClient.GetActive (c : FileClient) : List Bytes := c.active

/-- C10: for every key whose version list yields `n` versions from
`GetActive()`, after `fileClient.setValues(key)` the slice returned by the
client's `GetActive()` has length `2n`, its first `n` elements are empty
strings, and only its last `n` elements hold the active versions' data
bytes. -/
theorem C10_setValues_doubles_active (c : FileClient) (key : Key) :
    let ks := KeyVersionList.GetActive (key.versionList.getD [])
    let a := (c.setValues key).GetActive
    a.length = 2 * ks.length ∧
    a.take ks.length = List.replicate ks.length ([] : Bytes) ∧
    a.drop ks.length = ks.map KeyVersion.data := by
  intro ks a
  have ha : a = List.replicate ks.length ([] : Bytes) ++ ks.map KeyVersion.data := rfl
  refine ⟨?_, ?_, ?_⟩
  · simp [ha, List.length_append, List.length_replicate, List.length_map]
    ring
  · calc a.take ks.length
        = (List.replicate ks.length ([] : Bytes) ++ ks.map KeyVersion.data).take
            (List.replicate ks.length ([] : Bytes)).length := by
          rw [ha, List.length_replicate]
      _ = List.replicate ks.length ([] : Bytes) := List.take_left _ _
  · calc a.drop ks.length
        = (List.replicate ks.length ([] : Bytes) ++ ks.map KeyVersion.data).drop
            (List.replicate ks.length ([] : Bytes)).length := by
          rw [ha, List.length_replicate]
      _ = ks.map KeyVersion.data := List.drop_left _ _

/-! ### Principals and ACL evaluation (`src/unnamed/part_008`) -/

/-- From `part_008`: a `user` principal: an LDAP id and a group set
(`stringSet` modelled as a list with membership). -/
structure User where
  id : String
  groups : List String
deriving DecidableEq

/-- From `part_008` `user.inGroup` / `stringSet.memberOf`. -/
def User.inGroup (u : User) (g : String) : Bool := u.groups.contains g

/-- From `part_008` `user.CanAccess`: scan the ACL; `User` entries match on
exact id, `UserGroup` entries on group membership; a matching entry grants
when its access type covers `t`, returning the match reason. -/
def User.CanAccess (u : User) : ACL → AccessType → Bool × String
| [], _ => (false, "")
| a :: rest, t =>
  match a.type with
  | PrincipalType.User =>
    if a.id = u.id ∧ a.accessType.CanAccess t then (true, "0u" ++ u.id)
    else u.CanAccess rest t
  | PrincipalType.UserGroup =>
    if u.inGroup a.id ∧ a.accessType.CanAccess t then (true, "0g" ++ a.id)
    else u.CanAccess rest t
  | _ => u.CanAccess rest t

/-- From `part_008`: a `machine` principal is its hostname. -/
abbrev MachineP := String

/-- From `part_008` `machine.CanAccess`: `Machine` entries match on exact
hostname, `MachinePrefix` entries when the hostname starts with the entry
id. -/
def MachineP.CanAccess (m : MachineP) : ACL → AccessType → Bool × String
| [], _ => (false, "")
| a :: rest, t =>
  match a.type with
  | PrincipalType.Machine =>
    if a.id = m ∧ a.accessType.CanAccess t then (true, "0m" ++ m)
    else MachineP.CanAccess m rest t
  | PrincipalType.MachinePrefix =>
    if m.startsWith a.id ∧ a.accessType.CanAccess t then (true, "0p" ++ a.id)
    else MachineP.CanAccess m rest t
  | _ => MachineP.CanAccess m rest t

/-- From `part_008`: a `service` principal from a trust domain. -/
structure Service where
  domain : String
  id : String
deriving DecidableEq

/-- From `part_008` `service.GetID`: the SPIFFE rendering. -/
def Service.GetID (s : Service) : String := "spiffe://" ++ s.domain ++ "/" ++ s.id

/-- From `part_008` `service.CanAccess`: `Service` entries match on the exact
SPIFFE id, `ServicePrefix` entries when the SPIFFE id starts with the entry
id. -/
def Service.CanAccess (s : Service) : ACL → AccessType → Bool × String
| [], _ => (false, "")
| a :: rest, t =>
  match a.type with
  | PrincipalType.Service =>
    if a.id = s.GetID ∧ a.accessType.CanAccess t then (true, "0s" ++ s.GetID)
    else s.CanAccess rest t
  | PrincipalType.ServicePrefix =>
    if (s.GetID).startsWith a.id ∧ a.accessType.CanAccess t then (true, "0n" ++ a.id)
    else s.CanAccess rest t
  | _ => s.CanAccess rest t

/-- A user, machine, or service principal (the three `CanAccess`
implementations of `part_008`). -/
inductive Principal
| user (u : User)
| machine (m : MachineP)
| service (s : Service)

/-- Dispatch to the principal's own `CanAccess`. -/
def Principal.CanAccess : Principal → ACL → AccessType → Bool × String
| Principal.user u, acl, t => u.CanAccess acl t
| Principal.machine m, acl, t => MachineP.CanAccess m acl t
| Principal.service s, acl, t => s.CanAccess acl t

/-- Whether an ACL entry matches a principal: exact id for `User`, `Machine`
and `Service` entries, group membership for `UserGroup`, id-prefix for
`MachinePrefix` and `ServicePrefix`; other combinations never match. -/
def entryMatches (p : Principal) (a : Access) : Bool :=
  match p, a.type with
  | Principal.user u, PrincipalType.User => a.id = u.id
  | Principal.user u, PrincipalType.UserGroup => u.inGroup a.id
  | Principal.machine m, PrincipalType.Machine => a.id = m
  | Principal.machine m, PrincipalType.MachinePrefix => m.startsWith a.id
  | Principal.service s, PrincipalType.Service => a.id = s.GetID
  | Principal.service s, PrincipalType.ServicePrefix => (s.GetID).startsWith a.id
  | _, _ => false

/-- The audit match-reason string for a matching entry. -/
def matchReason (p : Principal) (a : Access) : String :=
  match p, a.type with
  | Principal.user u, PrincipalType.User => "0u" ++ u.id
  | Principal.user _, PrincipalType.UserGroup => "0g" ++ a.id
  | Principal.machine m, PrincipalType.Machine => "0m" ++ m
  | Principal.machine _, PrincipalType.MachinePrefix => "0p" ++ a.id
  | Principal.service s, PrincipalType.Service => "0s" ++ s.GetID
  | Principal.service _, PrincipalType.ServicePrefix => "0n" ++ a.id
  | _, _ => ""

/-- Each `CanAccess` scan is the generic first-match scan over
`entryMatches` and `matchReason`. -/
theorem canAccess_eq_scan (p : Principal) (acl : ACL) (t : AccessType) :
    p.CanAccess acl t =
      match acl with
      | [] => (false, "")
      | a :: rest =>
        if entryMatches p a ∧ a.accessType.CanAccess t then (true, matchReason p a)
        else p.CanAccess rest t := by
  cases p with
  | user u =>
    cases acl with
    | nil => rfl
    | cons a rest =>
      cases h : a.type <;>
        simp [Principal.CanAccess, User.CanAccess, entryMatches, matchReason, h]
  | machine m =>
    cases acl with
    | nil => rfl
    | cons a rest =>
      cases h : a.type <;>
        simp [Principal.CanAccess, MachineP.CanAccess, entryMatches, matchReason, h]
  | service s =>
    cases acl with
    | nil => rfl
    | cons a rest =>
      cases h : a.type <;>
        simp [Principal.CanAccess, Service.CanAccess, entryMatches, matchReason, h]

/-- C2: `p.CanAccess(acl, t)` grants iff some entry of the ACL matches `p`
(exact id for `User`/`Machine`/`Service`, group membership for `UserGroup`,
id-prefix for `MachinePrefix`/`ServicePrefix`) with an access type covering
`t`; on a grant the returned string is the match reason of a matching entry
of the ACL, and on a denial the result is `(false, "")`. -/
theorem C2_canAccess_spec (p : Principal) (acl : ACL) (t : AccessType) :
    ((p.CanAccess acl t).1 = true ↔
      ∃ a ∈ acl, entryMatches p a = true ∧ a.accessType.CanAccess t = true) ∧
    ((p.CanAccess acl t).1 = true →
      ∃ a ∈ acl, entryMatches p a = true ∧ a.accessType.CanAccess t = true ∧
        (p.CanAccess acl t).2 = matchReason p a) ∧
    ((p.CanAccess acl t).1 = false → p.CanAccess acl t = (false, "")) := by
  induction acl with
  | nil =>
    refine ⟨?_, ?_, ?_⟩
    · rw [canAccess_eq_scan]; simp
    · rw [canAccess_eq_scan]; simp
    · intro _; rw [canAccess_eq_scan]
  | cons a rest ih =>
    obtain ⟨ih1, ih2, ih3⟩ := ih
    by_cases hm : entryMatches p a = true ∧ a.accessType.CanAccess t = true
    · have hscan : p.CanAccess (a :: rest) t = (true, matchReason p a) := by
        rw [canAccess_eq_scan]
        simp [hm.1, hm.2]
      refine ⟨?_, ?_, ?_⟩
      · rw [hscan]
        simp only [true_iff]
        exact ⟨a, List.mem_cons_self a rest, hm.1, hm.2⟩
      · intro _
        exact ⟨a, List.mem_cons_self a rest, hm.1, hm.2, by rw [hscan]⟩
      · intro hfalse
        rw [hscan] at hfalse
        simp at hfalse
    · have hscan : p.CanAccess (a :: rest) t = p.CanAccess rest t := by
        rw [canAccess_eq_scan]
        rw [Classical.not_and_iff_or_not_not] at hm
        rcases hm with hm | hm <;> simp [hm]
      refine ⟨?_, ?_, ?_⟩
      · rw [hscan, ih1]
        constructor
        · rintro ⟨b, hb, h1, h2⟩
          exact ⟨b, List.mem_cons_of_mem a hb, h1, h2⟩
        · rintro ⟨b, hb, h1, h2⟩
          rcases List.mem_cons.mp hb with rfl | hb'
          · rw [Classical.not_and_iff_or_not_not] at hm
            rcases hm with hm | hm <;> simp [h1, h2] at hm
          · exact ⟨b, hb', h1, h2⟩
      · intro htrue
        rw [hscan] at htrue ⊢
        obtain ⟨b, hb, h1, h2, h3⟩ := ih2 htrue
        exact ⟨b, List.mem_cons_of_mem a hb, h1, h2, h3⟩
      · intro hfalse
        rw [hscan] at hfalse ⊢
        exact ih3 hfalse

/-! ### Response subcodes -/

/-- Modelled from the spec: the `OKCode` response subcode (first of the
subcode enumeration in the knox package, whose source is not in the
sources). -/
def OKCode : Nat := 0

/-- Modelled from the spec: the `InternalServerErrorCode` response subcode
(second of the subcode enumeration). -/
def InternalServerErrorCode : Nat := 1

/-- Modelled from the spec: the `UnauthenticatedCode` response subcode
(sixth of the subcode enumeration). -/
def UnauthenticatedCode : Nat := 5

/-! ### The authentication decorator (`src/server/decorators.go`) -/

/-- From `src/unnamed/part_008`: an authentication provider.  The HTTP
request handed to `Authenticate` is folded into the `authenticate` function;
`version` and `type` are the one-byte tags. -/
structure Provider (π : Type) where
  name : String
  version : Char
  type : Char
  authenticate : String → Except String π

/-- From `src/server/decorators.go` `providerMatch`: the Authorization header
matches a provider when it is longer than two bytes, its byte 0 is the
provider's `Version()` and its byte 1 is the provider's `Type()`; the
remainder is the payload. -/
def providerMatch {π : Type} (p : Provider π) (header : List Char) : Bool × List Char :=
  match header with
  | c0 :: c1 :: c2 :: rest =>
    if c0 = p.version ∧ c1 = p.type then (true, c2 :: rest) else (false, [])
  | _ => (false, [])

/-- From `src/server/decorators.go`: the Go map assignment
`allPrincipals[name] = principal`, on an association list. -/
def mapSet {π : Type} (m : List (String × π)) (k : String) (v : π) : List (String × π) :=
  if m.any (fun kv => kv.1 = k) then m.map (fun kv => if kv.1 = k then (k, v) else kv)
  else m ++ [(k, v)]

/-- From the knox package: `PrincipalMux{default, byProvider}`. -/
structure PrincipalMux (π : Type) where
  default : π
  byProvider : List (String × π)

/-- Outcome of the `Authentication` decorator: either a principal mux is set
on the request, or the request is rejected with a subcode and message. -/
inductive AuthResult (π : Type)
| ok (mux : PrincipalMux π)
| err (code : Nat) (msg : String)

/-- The message used when no authentication provider matched the request. -/
def NoMatchingProvidersMsg : String := "No matching authentication providers found"

/-- From `src/server/decorators.go` `Authentication`: the provider loop, with
its three accumulators (`defaultPrincipal`, `allPrincipals`, `errReturned`)
made explicit. -/
def authLoop {π : Type} (header : List Char) :
    List (Provider π) → Option π → List (String × π) → String →
      Option π × List (String × π) × String
| [], dflt, allP, errR => (dflt, allP, errR)
| p :: rest, dflt, allP, errR =>
  let mp := providerMatch p header
  if mp.1 then
    match p.authenticate (String.mk mp.2) with
    | Except.error e => authLoop header rest dflt allP e
    | Except.ok principal =>
      let dflt' := match dflt with
                   | none => some principal
                   | some d => some d
      authLoop header rest dflt' (mapSet allP p.name principal) errR
  else authLoop header rest dflt allP errR

/-- From `src/server/decorators.go` `Authentication`: run the loop; reject
with `UnauthenticatedCode` when no default principal was found, else set the
principal mux. -/
def Authentication {π : Type} (providers : List (Provider π)) (header : List Char) :
    AuthResult π :=
  match authLoop header providers none [] NoMatchingProvidersMsg with
  | (none, _, errR) => AuthResult.err UnauthenticatedCode errR
  | (some d, allP, _) => AuthResult.ok ⟨d, allP⟩

/-- The providers whose matcher accepts the request. -/
def matchingProviders {π : Type} (providers : List (Provider π)) (header : List Char) :
    List (Provider π) :=
  providers.filter (fun p => (providerMatch p header).1)

/-- The successful authentications among the matching providers, in list
order, as (provider name, principal) pairs. -/
def authSuccesses {π : Type} (providers : List (Provider π)) (header : List Char) :
    List (String × π) :=
  (matchingProviders providers header).filterMap
    (fun p => match p.authenticate (String.mk (header.drop 2)) with
              | Except.ok pr => some (p.name, pr)
              | Except.error _ => none)

/-- The error messages of the failed authentications among the matching
providers, in list order. -/
def authFailures {π : Type} (providers : List (Provider π)) (header : List Char) :
    List String :=
  (matchingProviders providers header).filterMap
    (fun p => match p.authenticate (String.mk (header.drop 2)) with
              | Except.ok _ => none
              | Except.error e => some e)

/-- A matching provider's payload is the header with its first two bytes
removed. -/
theorem providerMatch_payload {π : Type} (p : Provider π) (header : List Char)
    (h : (providerMatch p header).1 = true) :
    (providerMatch p header).2 = header.drop 2 := by
  match header with
  | [] => simp [providerMatch] at h
  | [c0] => simp [providerMatch] at h
  | [c0, c1] => simp [providerMatch] at h
  | c0 :: c1 :: c2 :: rest =>
    by_cases hc : c0 = p.version ∧ c1 = p.type
    · simp [providerMatch, hc]
    · simp [providerMatch, hc] at h

/-- Characterization of the provider loop in terms of the matching
providers' successes and failures. -/
theorem authLoop_spec {π : Type} (header : List Char) :
    ∀ (ps : List (Provider π)) (dflt : Option π) (allP : List (String × π)) (errR : String),
      authLoop header ps dflt allP errR =
        ((match dflt with
          | some d => some d
          | none => (authSuccesses ps header).head?.map Prod.snd),
         (authSuccesses ps header).foldl (fun m nv => mapSet m nv.1 nv.2) allP,
         (authFailures ps header).getLastD errR) := by
  intro ps
  induction ps with
  | nil =>
    intro dflt allP errR
    cases dflt <;> simp [authLoop, authSuccesses, authFailures, matchingProviders]
  | cons p rest ih =>
    intro dflt allP errR
    by_cases hm : (providerMatch p header).1 = true
    · have hpay : (providerMatch p header).2 = header.drop 2 :=
        providerMatch_payload p header hm
      have hmatching : matchingProviders (p :: rest) header =
          p :: matchingProviders rest header := by
        simp [matchingProviders, hm]
      cases hauth : p.authenticate (String.mk (header.drop 2)) with
      | error e =>
        have hl : authLoop header (p :: rest) dflt allP errR =
            authLoop header rest dflt allP e := by
          simp only [authLoop, hm, if_true, hpay, hauth]
        have hs : authSuccesses (p :: rest) header = authSuccesses rest header := by
          simp [authSuccesses, hmatching, hauth]
        have hf : authFailures (p :: rest) header = e :: authFailures rest header := by
          simp [authFailures, hmatching, hauth]
        rw [hl, ih, hs, hf, List.getLastD_cons]
      | ok principal =>
        have hl : authLoop header (p :: rest) dflt allP errR =
            authLoop header rest
              (match dflt with
               | none => some principal
               | some d => some d)
              (mapSet allP p.name principal) errR := by
          simp only [authLoop, hm, if_true, hpay, hauth]
        have hs : authSuccesses (p :: rest) header =
            (p.name, principal) :: authSuccesses rest header := by
          simp [authSuccesses, hmatching, hauth]
        have hf : authFailures (p :: rest) header = authFailures rest header := by
          simp [authFailures, hmatching, hauth]
        rw [hl, ih, hs, hf]
        cases dflt <;> simp [List.foldl_cons, mapSet]
    · have hl : authLoop header (p :: rest) dflt allP errR =
          authLoop header rest dflt allP errR := by
        simp only [authLoop, hm]
        simp
      have hmatching : matchingProviders (p :: rest) header =
          matchingProviders rest header := by
        simp [matchingProviders, hm]
      have hs : authSuccesses (p :: rest) header = authSuccesses rest header := by
        simp [authSuccesses, hmatching]
      have hf : authFailures (p :: rest) header = authFailures rest header := by
        simp [authFailures, hmatching]
      rw [hl, ih, hs, hf]

/-- Every matching provider contributes to exactly one of the success and
failure lists. -/
theorem authSuccess_failure_partition {π : Type} (providers : List (Provider π))
    (header : List Char) :
    (authSuccesses providers header).length + (authFailures providers header).length
      = (matchingProviders providers header).length := by
  induction providers with
  | nil => simp [authSuccesses, authFailures, matchingProviders]
  | cons p rest ih =>
    by_cases hm : (providerMatch p header).1 = true
    · have hmatching : matchingProviders (p :: rest) header =
          p :: matchingProviders rest header := by
        simp [matchingProviders, hm]
      cases hauth : p.authenticate (String.mk (header.drop 2)) with
      | error e =>
        simp only [authSuccesses, authFailures, hmatching, List.filterMap_cons, hauth]
        simp only [authSuccesses, authFailures] at ih
        simp [ih]
        omega
      | ok principal =>
        simp only [authSuccesses, authFailures, hmatching, List.filterMap_cons, hauth]
        simp only [authSuccesses, authFailures] at ih
        simp [ih]
        omega
    · have hmatching : matchingProviders (p :: rest) header =
          matchingProviders rest header := by
        simp [matchingProviders, hm]
      simp only [authSuccesses, authFailures, hmatching]
      simpa [authSuccesses, authFailures] using ih

/-- C3: the `Authentication` decorator runs every provider whose matcher
accepts the request (header longer than two bytes, byte 0 the provider's
version tag, byte 1 its type tag, the remainder the payload); all successful
principals are collected into a `PrincipalMux` whose default is the first
success in provider-list order; and when no provider matches, or every
matching provider errors, the request is rejected with `UnauthenticatedCode`
carrying the last provider error (or the no-matching-providers message). -/
theorem C3_authentication_spec {π : Type} (providers : List (Provider π))
    (header : List Char) :
    (∀ p : Provider π, (providerMatch p header).1 = true ↔
      2 < header.length ∧ header.get? 0 = some p.version ∧ header.get? 1 = some p.type) ∧
    (∀ p : Provider π, (providerMatch p header).1 = true →
      (providerMatch p header).2 = header.drop 2) ∧
    ((authSuccesses providers header).length + (authFailures providers header).length
      = (matchingProviders providers header).length) ∧
    (authSuccesses providers header = [] →
      Authentication providers header =
        AuthResult.err UnauthenticatedCode
          ((authFailures providers header).getLastD NoMatchingProvidersMsg)) ∧
    (∀ (n0 : String) (pr0 : π) (rest : List (String × π)),
      authSuccesses providers header = (n0, pr0) :: rest →
      Authentication providers header =
        AuthResult.ok ⟨pr0,
          (authSuccesses providers header).foldl (fun m nv => mapSet m nv.1 nv.2) []⟩) := by
  refine ⟨?_, fun p => providerMatch_payload p header,
    authSuccess_failure_partition providers header, ?_, ?_⟩
  · intro p
    match header with
    | [] => simp [providerMatch]
    | [c0] => simp [providerMatch]
    | [c0, c1] => simp [providerMatch]
    | c0 :: c1 :: c2 :: rest =>
      by_cases hc : c0 = p.version ∧ c1 = p.type
      · simp [providerMatch, hc, hc.1, hc.2, List.get?]
      · rw [Classical.not_and_iff_or_not_not] at hc
        rcases hc with hc | hc <;> simp [providerMatch, hc, List.get?]
  · intro hempty
    unfold Authentication
    rw [authLoop_spec, hempty]
    simp
  · intro n0 pr0 rest hsucc
    unfold Authentication
    rw [authLoop_spec]
    simp only [hsucc]
    simp

/-! ### Server-side key creation (`src/unnamed/part_007`) -/

/-- From `src/unnamed/part_007` `newKeyVersion`: the wall clock
(`time.Now().UnixNano()`) and the random id (`uint64(rand.Int63())`, a
non-negative 63-bit integer) are passed in explicitly. -/
def newKeyVersion (d : Bytes) (s : VersionStatus) (now : Int) (randID : Nat) : KeyVersion :=
  { id := randID, data := d, status := s, creationTime := now }

/-- From `src/unnamed/part_007` `newKey`: add the creator as a User-Admin
entry to the caller-supplied ACL, then add every server-configured default
access; the version list is a single `Primary` version and the hash is
recomputed from it. -/
def newKey (defaultAccess : List Access) (id : String) (acl : ACL) (d : Bytes)
    (creatorID : String) (now : Int) (randID : Nat) : Key :=
  let creatorAccess : Access :=
    { type := PrincipalType.User, id := creatorID, accessType := AccessType.Admin }
  let acl1 := defaultAccess.foldl ACL.Add (ACL.Add acl creatorAccess)
  let vl : KeyVersionList := [newKeyVersion d VersionStatus.Primary now randID]
  { id := id, acl := some acl1, versionList := some vl,
    versionHash := KeyVersionList.Hash vl }

/-- `ACL.Add` with a non-`None` access puts that access into the list. -/
theorem ACL.Add_mem_self (acl : ACL) (a : Access) (h : a.accessType ≠ AccessType.None) :
    a ∈ ACL.Add acl a := by
  unfold ACL.Add
  rw [if_neg h]
  by_cases hany : acl.any (fun b => b.type = a.type && b.id = a.id) = true
  · rw [if_pos hany]
    obtain ⟨b, hb, hcond⟩ := List.any_eq_true.mp hany
    rw [Bool.and_eq_true, decide_eq_true_eq, decide_eq_true_eq] at hcond
    exact List.mem_map.mpr ⟨b, hb, by rw [if_pos hcond]⟩
  · rw [if_neg hany]
    exact List.mem_append_right _ (List.mem_singleton.mpr rfl)

/-- After `ACL.Add` with a non-`None` access, every entry sharing its
`(type, id)` is that access: same-key entries are replaced, not
duplicated. -/
theorem ACL.Add_replaces (acl : ACL) (a b : Access) (h : a.accessType ≠ AccessType.None)
    (hb : b ∈ ACL.Add acl a) (ht : b.type = a.type) (hi : b.id = a.id) : b = a := by
  unfold ACL.Add at hb
  rw [if_neg h] at hb
  by_cases hany : acl.any (fun c => c.type = a.type && c.id = a.id) = true
  · rw [if_pos hany] at hb
    obtain ⟨c, hc, hcb⟩ := List.mem_map.mp hb
    by_cases hcond : c.type = a.type ∧ c.id = a.id
    · rw [if_pos hcond] at hcb
      exact hcb.symm
    · rw [if_neg hcond] at hcb
      subst hcb
      exact absurd ⟨ht, hi⟩ hcond
  · rw [if_neg hany] at hb
    rcases List.mem_append.mp hb with hb' | hb'
    · exact absurd (List.any_eq_true.mpr ⟨b, hb', by simp [ht, hi]⟩) hany
    · exact List.mem_singleton.mp hb'

/-- C4: for every key id, caller-supplied ACL, data, and creator, `newKey`
returns a key whose ACL is the caller ACL with the creator added as a
User-Admin entry and then every server-configured default access added with
`ACL.Add` semantics (same-`(type, id)` entries replaced), whose version list
is exactly one `Primary` version with the random non-negative 63-bit id and
the current creation time, and whose `versionHash` is the version list's
`Hash()`. -/
theorem C4_newKey_spec (defaults : List Access) (id : String) (acl : ACL) (d : Bytes)
    (creatorID : String) (now : Int) (randID : Nat) (hrand : randID < 2 ^ 63) :
    (newKey defaults id acl d creatorID now randID).acl =
      some (defaults.foldl ACL.Add
        (ACL.Add acl ⟨PrincipalType.User, creatorID, AccessType.Admin⟩)) ∧
    (newKey defaults id acl d creatorID now randID).versionList =
      some [⟨randID, d, VersionStatus.Primary, now⟩] ∧
    randID < 2 ^ 63 ∧
    (newKey defaults id acl d creatorID now randID).versionHash =
      KeyVersionList.Hash [⟨randID, d, VersionStatus.Primary, now⟩] ∧
    (∀ (acl' : ACL) (a : Access), a.accessType ≠ AccessType.None → a ∈ ACL.Add acl' a) ∧
    (∀ (acl' : ACL) (a b : Access), a.accessType ≠ AccessType.None →
      b ∈ ACL.Add acl' a → b.type = a.type → b.id = a.id → b = a) :=
  ⟨rfl, rfl, hrand, rfl, ACL.Add_mem_self, ACL.Add_replaces⟩

/-- C4 witness: `newKey` at concrete inputs: the single `Primary` version
carries the supplied random id, data and timestamp. -/
theorem C4_newKey_spec_witness :
    (newKey [] "a1" [] [49] "testuser" 10 7).versionList
      = some [⟨7, [49], VersionStatus.Primary, 10⟩] :=
  (C4_newKey_spec [] "a1" [] [49] "testuser" 10 7 (by norm_num)).2.1

/-! ### Structured keysets (`src/client/tink_keyset_helper.go`) -/

/-- A structured (tink) keyset, projected to what `addNewTinkKeyset` reads of
it: the 32-bit id of its primary subkey.  Each knox version of a
structured-keyset key stores a keyset holding a single subkey whose id is the
keyset's primary id (the repository's own `TestCreateNewTinkKeyset` asserts
this of freshly generated keysets). -/
structure TinkKeyset where
  primaryKeyId : Nat
deriving DecidableEq

/-- From `src/client/tink_keyset_helper.go` `addNewTinkKeyset`: collect the
subkey id stored in every existing version; `readTinkKeysetFromBytes` is
abstracted as `parse`, and a parse failure aborts with its error. -/
def collectExistingTinkKeyIDs (parse : Bytes → Except String TinkKeyset) :
    KeyVersionList → Except String (List Nat)
| [] => Except.ok []
| v :: rest =>
  match parse v.data with
  | Except.error e => Except.error e
  | Except.ok ks =>
    match collectExistingTinkKeyIDs parse rest with
    | Except.error e => Except.error e
    | Except.ok ids => Except.ok (ks.primaryKeyId :: ids)

/-- From `src/client/tink_keyset_helper.go` `addNewTinkKeyset`: the retry
loop.  `keyset.NewHandle` is abstracted as the generator sequence `gen`
(generation attempt number ↦ fresh keyset or error); `fuel` bounds how many
generation attempts are modelled (the Go loop is unbounded), with `none`
meaning every modelled attempt collided. -/
def retryFreshTinkKeyset (gen : Nat → Except String TinkKeyset) (existing : List Nat) :
    Nat → Nat → Option (Except String TinkKeyset)
| _, 0 => none
| j, fuel+1 =>
  match gen j with
  | Except.error _ => some (Except.error "cannot get tink keyset handle")
  | Except.ok ks =>
    if ks.primaryKeyId ∈ existing then retryFreshTinkKeyset gen existing (j+1) fuel
    else some (Except.ok ks)

/-- From `src/client/tink_keyset_helper.go` `addNewTinkKeyset`: collect the
existing subkey ids, then regenerate until the fresh keyset's id collides
with none of them. -/
def addNewTinkKeyset (gen : Nat → Except String TinkKeyset)
    (parse : Bytes → Except String TinkKeyset) (kvl : KeyVersionList) (fuel : Nat) :
    Option (Except String TinkKeyset) :=
  match collectExistingTinkKeyIDs parse kvl with
  | Except.error e => some (Except.error e)
  | Except.ok ids => retryFreshTinkKeyset gen ids 0 fuel

/-- A keyset accepted by the retry loop has an id colliding with no
existing id. -/
theorem retryFreshTinkKeyset_not_mem (gen : Nat → Except String TinkKeyset)
    (existing : List Nat) :
    ∀ (fuel j : Nat) (ks : TinkKeyset),
      retryFreshTinkKeyset gen existing j fuel = some (Except.ok ks) →
      ks.primaryKeyId ∉ existing := by
  intro fuel
  induction fuel with
  | zero => intro j ks h; simp [retryFreshTinkKeyset] at h
  | succ n ih =>
    intro j ks h
    unfold retryFreshTinkKeyset at h
    split at h
    · simp at h
    · split at h
      · exact ih _ _ h
      · simp only [Option.some.injEq, Except.ok.injEq] at h
        subst h
        assumption

/-- Every version that parses contributes its subkey id to the collected
list. -/
theorem collectExistingTinkKeyIDs_mem (parse : Bytes → Except String TinkKeyset) :
    ∀ (kvl : KeyVersionList) (ids : List Nat),
      collectExistingTinkKeyIDs parse kvl = Except.ok ids →
      ∀ v ∈ kvl, ∀ s, parse v.data = Except.ok s → s.primaryKeyId ∈ ids := by
  intro kvl
  induction kvl with
  | nil => intro ids _ v hv; simp at hv
  | cons w rest ih =>
    intro ids h v hv s hs
    unfold collectExistingTinkKeyIDs at h
    cases hw : parse w.data with
    | error e => rw [hw] at h; simp at h
    | ok ksw =>
      rw [hw] at h
      cases hrest : collectExistingTinkKeyIDs parse rest with
      | error e => rw [hrest] at h; simp at h
      | ok ids' =>
        rw [hrest] at h
        simp only [Except.ok.injEq] at h
        subst h
        rcases List.mem_cons.mp hv with rfl | hv'
        · rw [hw] at hs
          simp only [Except.ok.injEq] at hs
          subst hs
          exact List.mem_cons_self _ _
        · exact List.mem_cons_of_mem _ (ih ids' hrest v hv' s hs)

/-- C5: when `addNewTinkKeyset` returns a keyset, the new subkey id differs
from the subkey id stored in every existing version of the knox version list
(generation was retried past every collision), so adding the new version
preserves uniqueness of subkey ids across all versions. -/
theorem C5_addNewTinkKeyset_fresh (gen : Nat → Except String TinkKeyset)
    (parse : Bytes → Except String TinkKeyset) (kvl : KeyVersionList) (fuel : Nat)
    (ks : TinkKeyset)
    (h : addNewTinkKeyset gen parse kvl fuel = some (Except.ok ks)) :
    (∀ v ∈ kvl, ∀ s, parse v.data = Except.ok s →
      ks.primaryKeyId ≠ s.primaryKeyId) ∧
    (∀ ids, collectExistingTinkKeyIDs parse kvl = Except.ok ids →
      ids.Nodup → (ks.primaryKeyId :: ids).Nodup) := by
  unfold addNewTinkKeyset at h
  cases hc : collectExistingTinkKeyIDs parse kvl with
  | error e => rw [hc] at h; simp at h
  | ok ids =>
    rw [hc] at h
    have hfresh : ks.primaryKeyId ∉ ids :=
      retryFreshTinkKeyset_not_mem gen ids fuel 0 ks h
    constructor
    · intro v hv s hs heq
      exact hfresh (heq ▸ collectExistingTinkKeyIDs_mem parse kvl ids hc v hv s hs)
    · intro ids' hc' hnd
      simp only [Except.ok.injEq] at hc'
      subst hc'
      exact List.nodup_cons.mpr ⟨hfresh, hnd⟩

/-- Generator used by the C5 witness: the j-th generation attempt yields the
keyset with primary subkey id j. -/
def tinkGenW (j : Nat) : Except String TinkKeyset := Except.ok ⟨j⟩

/-- Parser used by the C5 witness: a version's data is read as the keyset
whose subkey id is its first byte. -/
def tinkParseW (b : Bytes) : Except String TinkKeyset := Except.ok ⟨b.headD 0⟩

/-- Version list used by the C5 witness: two versions whose stored subkey ids
are 0 and 1. -/
def tinkKvlW : KeyVersionList :=
  [⟨1, [0], VersionStatus.Primary, 10⟩, ⟨2, [1], VersionStatus.Active, 10⟩]

/-- C5 witness: with existing subkey ids 0 and 1 and a generator yielding
0, 1, 2, …, the helper retries twice and returns the keyset with subkey id 2,
which differs from the id stored in the first version. -/
theorem C5_addNewTinkKeyset_fresh_witness :
    ({ primaryKeyId := 2 } : TinkKeyset).primaryKeyId ≠
      ({ primaryKeyId := 0 } : TinkKeyset).primaryKeyId :=
  (C5_addNewTinkKeyset_fresh tinkGenW tinkParseW tinkKvlW 3 ⟨2⟩ rfl).1
    ⟨1, [0], VersionStatus.Primary, 10⟩ (by simp [tinkKvlW]) ⟨0⟩ rfl

/-! ### Client HTTP transport (`src/client.go` `UncachedHTTPClient.getHTTPData`) -/

/-- From `src/client.go`: the response envelope as the client decodes it;
`data` is the decoded payload (the Go out-pointer), `none` when the decoded
envelope carried nil data. -/
structure Response (α : Type) where
  status : String
  code : Nat
  message : String
  data : Option α

/-- From `src/client.go`: `maxRetryAttempts = 3`. -/
def maxRetryAttempts : Nat := 3

/-- From `src/client.go` `getHTTPData` / `getHTTPResp`: the attempt loop.
`responses i` is the outcome of HTTP attempt `i` (a transport or decode
error, or a decoded envelope); `prev` is the data decoded so far
(`getHTTPResp` keeps the previous data when the new envelope has nil data).
Returns the number of attempts made and the outcome; the zero-fuel base case
is never reached from `getHTTPData` because the loop returns by attempt
`maxRetryAttempts` at the latest. -/
def getHTTPLoop {α : Type} (responses : Nat → Except String (Response α)) :
    Nat → Nat → Option α → Nat × Except String (Option α)
| _, 0, prev => (0, Except.ok prev)
| i, fuel+1, prev =>
  match responses i with
  | Except.error e => (1, Except.error e)
  | Except.ok resp =>
    let dataNow := match resp.data with
                   | none => prev
                   | some d => some d
    if resp.status ≠ "ok" then
      if resp.code ≠ InternalServerErrorCode ∨ i = maxRetryAttempts then
        (1, Except.error resp.message)
      else
        let r := getHTTPLoop responses (i+1) fuel dataNow
        (r.1 + 1, r.2)
    else (1, Except.ok dataNow)

/-- The no-authentication error message (the Go string quotes the words knox
login in single quotes, omitted here). -/
def NoAuthMsg : String :=
  "No authentication data given. Use knox login or set KNOX_USER_AUTH or KNOX_MACHINE_AUTH"

/-- From `src/client.go` `getHTTPData`: when the auth handler returns the
empty string the call fails before any HTTP attempt; otherwise the attempt
loop runs from attempt 1 with up to `maxRetryAttempts` attempts. -/
def getHTTPData {α : Type} (auth : String) (responses : Nat → Except String (Response α)) :
    Nat × Except String (Option α) :=
  if auth = "" then (0, Except.error NoAuthMsg)
  else getHTTPLoop responses 1 maxRetryAttempts none

/-- The attempt loop makes at most `fuel` attempts. -/
theorem getHTTPLoop_attempts_le {α : Type} (responses : Nat → Except String (Response α)) :
    ∀ (fuel i : Nat) (prev : Option α), (getHTTPLoop responses i fuel prev).1 ≤ fuel := by
  intro fuel
  induction fuel with
  | zero => intro i prev; simp [getHTTPLoop]
  | succ n ih =>
    intro i prev
    unfold getHTTPLoop
    cases responses i with
    | error e => simp
    | ok resp =>
      simp only
      split
      · split
        · simp
        · simpa using Nat.succ_le_succ (ih (i+1) _)
      · simp

/-- One step of the attempt loop. -/
theorem getHTTPLoop_step {α : Type} (responses : Nat → Except String (Response α))
    (i fuel : Nat) (prev : Option α) :
    getHTTPLoop responses i (fuel+1) prev =
      match responses i with
      | Except.error e => (1, Except.error e)
      | Except.ok resp =>
        let dataNow := match resp.data with
                       | none => prev
                       | some d => some d
        if resp.status ≠ "ok" then
          if resp.code ≠ InternalServerErrorCode ∨ i = maxRetryAttempts then
            (1, Except.error resp.message)
          else ((getHTTPLoop responses (i+1) fuel dataNow).1 + 1,
                (getHTTPLoop responses (i+1) fuel dataNow).2)
        else (1, Except.ok dataNow) := rfl

/-- C6: `getHTTPData` performs at most 3 HTTP attempts; a first-attempt OK
response stops the loop with its payload; a decoded non-OK response with any
code other than `InternalServerErrorCode` fails immediately with the response
message; a non-OK `InternalServerErrorCode` response with attempts remaining
retries (one more attempt than the remaining loop); and against a server
returning InternalServerError twice and then OK, exactly 3 attempts are made
and the OK payload is returned. -/
theorem C6_getHTTPData_retry_policy {α : Type} (auth : String)
    (responses : Nat → Except String (Response α)) :
    (getHTTPData auth responses).1 ≤ 3 ∧
    (∀ r : Response α, auth ≠ "" → responses 1 = Except.ok r → r.status = "ok" →
      getHTTPData auth responses = (1, Except.ok r.data)) ∧
    (∀ r : Response α, auth ≠ "" → responses 1 = Except.ok r → r.status ≠ "ok" →
      r.code ≠ InternalServerErrorCode →
      getHTTPData auth responses = (1, Except.error r.message)) ∧
    (∀ (i fuel : Nat) (prev : Option α) (r : Response α),
      responses i = Except.ok r → r.status ≠ "ok" → r.code = InternalServerErrorCode →
      i ≠ maxRetryAttempts →
      getHTTPLoop responses i (fuel+1) prev =
        ((getHTTPLoop responses (i+1) fuel
            (match r.data with | none => prev | some d => some d)).1 + 1,
         (getHTTPLoop responses (i+1) fuel
            (match r.data with | none => prev | some d => some d)).2)) ∧
    (∀ p : α,
      getHTTPData "auth"
        (fun i => if i ≤ 2 then
            Except.ok ⟨"error", InternalServerErrorCode, "Internal Server Error", none⟩
          else Except.ok ⟨"ok", OKCode, "", some p⟩)
        = (3, Except.ok (some p))) := by
  refine ⟨?_, ?_, ?_, ?_, fun p => rfl⟩
  · unfold getHTTPData
    by_cases hauth : auth = ""
    · simp [hauth]
    · rw [if_neg hauth]
      exact getHTTPLoop_attempts_le responses maxRetryAttempts 1 none
  · intro r hauth h1 hst
    unfold getHTTPData
    rw [if_neg hauth, show (maxRetryAttempts : Nat) = 2+1 from rfl, getHTTPLoop_step, h1]
    simp only
    rw [if_neg (by simp [hst])]
    cases hd : r.data <;> simp [hd]
  · intro r hauth h1 hst hcode
    unfold getHTTPData
    rw [if_neg hauth, show (maxRetryAttempts : Nat) = 2+1 from rfl, getHTTPLoop_step, h1]
    simp only
    rw [if_pos hst, if_pos (Or.inl hcode)]
  · intro i fuel prev r hi hst hcode hmax
    rw [getHTTPLoop_step, hi]
    simp only
    rw [if_pos hst, if_neg (fun h => h.elim (fun hne => hne hcode) hmax)]

/-- C7: when the configured auth handler yields the empty string, every
operation going through `getHTTPData` fails with the distinct
no-authentication error before any HTTP attempt is issued: the attempt count
is 0 and the error is the fixed no-auth message. -/
theorem C7_no_auth_no_request {α : Type} (responses : Nat → Except String (Response α)) :
    getHTTPData "" responses = (0, Except.error NoAuthMsg) := rfl

/-! ### Retry backoff (`src/client.go` `GetBackoffDuration`) -/

/-- From `src/client.go`: `baseBackoff = 50 * time.Millisecond`, in
nanoseconds. -/
def baseBackoff : ℚ := 50000000

/-- From `src/client.go`: `maxBackoff = 3 * time.Second`, in nanoseconds. -/
def maxBackoff : ℚ := 3000000000

/-- From `src/client.go` `GetBackoffDuration`: the body is
`duration := rand.Float64()*float64(attempt) + basef`, so the randomized
term is `rand.Float64()` (modelled as an exact rational `r ∈ [0,1)`) times
the attempt number — in nanoseconds.  The final `time.Duration(duration)`
conversion truncates to an integer nanosecond count; all quantities involved
are exactly representable as `float64`. -/
def GetBackoffDuration (r : ℚ) (attempt : Nat) : ℤ :=
  let duration : ℚ := r * (attempt : ℚ) + baseBackoff
  if duration > maxBackoff then 3000000000 else ⌊duration⌋

/-- C8 counterexample: at attempt 2 the claimed randomized range `50ms·2`
is unattainable: a mid-range `rand.Float64()` of 1/2 adds exactly one
nanosecond, and no rand value in `[0,1)` pushes the result to even 100ms
(it never reaches `50ms + 2ns`), so the randomized component does not grow
as `50ms·n`. -/
theorem C8_counterexample :
    GetBackoffDuration (1/2) 2 = 50000001 ∧
    ¬ ∃ r : ℚ, 0 ≤ r ∧ r < 1 ∧ (100000000 : ℤ) ≤ GetBackoffDuration r 2 := by
  constructor
  · unfold GetBackoffDuration
    norm_num [baseBackoff, maxBackoff]
  · rintro ⟨r, hr0, hr1, hge⟩
    unfold GetBackoffDuration at hge
    have hd : r * ((2 : Nat) : ℚ) + baseBackoff < 50000002 := by
      push_cast
      rw [baseBackoff]
      nlinarith
    have hcap : ¬(r * ((2 : Nat) : ℚ) + baseBackoff > maxBackoff) := by
      rw [baseBackoff, maxBackoff]
      push_cast
      nlinarith
    rw [if_neg hcap] at hge
    have hle : ((100000000 : ℤ) : ℚ) ≤ r * ((2 : Nat) : ℚ) + baseBackoff :=
      Int.le_floor.mp hge
    push_cast at hle hd
    linarith

/-- C8 (amended): for every retry attempt `1 ≤ n ≤ maxRetryAttempts` and
every `rand.Float64()` value `r ∈ [0,1)`, the backoff duration is at least
the 50ms base and never exceeds the 3s cap, but its randomized component is
`r·n` nanoseconds: the result is strictly below `50ms + n` nanoseconds, so
the randomized range grows linearly in nanoseconds per attempt, not as
`50ms·n`. -/
theorem C8_backoff_range (r : ℚ) (n : Nat) (h0 : 0 ≤ r) (h1 : r < 1)
    (hn : 1 ≤ n) (hn3 : n ≤ 3) :
    (50000000 : ℤ) ≤ GetBackoffDuration r n ∧
    GetBackoffDuration r n ≤ 3000000000 ∧
    GetBackoffDuration r n < 50000000 + (n : ℤ) := by
  have hnq : ((n : ℚ)) ≤ 3 := by exact_mod_cast hn3
  have hnq0 : (0 : ℚ) ≤ (n : ℚ) := by positivity
  have hd_lo : baseBackoff ≤ r * (n : ℚ) + baseBackoff := by
    nlinarith
  have hnpos : (0 : ℚ) < (n : ℚ) := by
    exact_mod_cast Nat.lt_of_lt_of_le Nat.zero_lt_one hn
  have hd_hi : r * (n : ℚ) + baseBackoff < baseBackoff + (n : ℚ) := by
    have hrn : r * (n : ℚ) < (n : ℚ) := by nlinarith
    linarith
  have hcap : ¬(r * (n : ℚ) + baseBackoff > maxBackoff) := by
    rw [baseBackoff, maxBackoff] at *
    nlinarith
  unfold GetBackoffDuration
  rw [if_neg hcap]
  refine ⟨?_, ?_, ?_⟩
  · rw [Int.le_floor]
    calc ((50000000 : ℤ) : ℚ) = baseBackoff := by rw [baseBackoff]; norm_num
      _ ≤ r * (n : ℚ) + baseBackoff := hd_lo
  · have : r * (n : ℚ) + baseBackoff ≤ ((3000000000 : ℤ) : ℚ) := by
      rw [baseBackoff]
      push_cast
      nlinarith
    calc ⌊r * (n : ℚ) + baseBackoff⌋ ≤ ⌊((3000000000 : ℤ) : ℚ)⌋ := Int.floor_le_floor this
      _ = 3000000000 := Int.floor_intCast _
  · rw [Int.floor_lt]
    calc r * (n : ℚ) + baseBackoff < baseBackoff + (n : ℚ) := hd_hi
      _ = ((50000000 + (n : ℤ) : ℤ) : ℚ) := by rw [baseBackoff]; push_cast; ring

/-- C8 witness: the amended bounds at `rand.Float64() = 1/2`, attempt 2. -/
theorem C8_backoff_range_witness :
    (50000000 : ℤ) ≤ GetBackoffDuration (1/2) 2 ∧
    GetBackoffDuration (1/2) 2 ≤ 3000000000 ∧
    GetBackoffDuration (1/2) 2 < 50000000 + ((2 : Nat) : ℤ) :=
  C8_backoff_range (1/2) 2 (by norm_num) (by norm_num) (by norm_num) (by norm_num)

/-! ### The register command (`src/client/register.go`) -/

/-- From `src/client/register.go`: `registerRecheckTime = 10 * time.Millisecond`,
in nanoseconds. -/
def registerRecheckTime : Nat := 10000000

/-- Numeric value of a digit run. -/
def digitsVal (l : List Char) : Nat :=
  l.foldl (fun acc c => acc * 10 + (c.toNat - 48)) 0

/-- Decimal number at the head of the input (Go `time.ParseDuration`'s
`leadingInt`/`leadingFraction`): digits, optionally a point and more digits,
kept as (integer part, fraction digits, fraction length). -/
def parseNumber (l : List Char) : Option ((Nat × Nat × Nat) × List Char) :=
  let p := l.span Char.isDigit
  match p.2 with
  | '.' :: rest2 =>
    let q := rest2.span Char.isDigit
    if p.1 = [] ∧ q.1 = [] then none
    else some ((digitsVal p.1, digitsVal q.1, q.1.length), q.2)
  | _ => if p.1 = [] then none else some ((digitsVal p.1, 0, 0), p.2)

/-- Unit multiplier in nanoseconds at the head of the input, for the units
Go `time.ParseDuration` knows (the micro-sign spellings of `us` are
omitted). -/
def parseUnit : List Char → Option (Nat × List Char)
| 'n' :: 's' :: r => some (1, r)
| 'u' :: 's' :: r => some (1000, r)
| 'm' :: 's' :: r => some (1000000, r)
| 'm' :: r => some (60000000000, r)
| 's' :: r => some (1000000000, r)
| 'h' :: r => some (3600000000000, r)
| _ => none

/-- Number-unit segments summed in integer nanoseconds (the fractional part
contributes `frac * unit / 10^len`, truncating as Go does); `fuel` bounds the
recursion (each segment consumes at least one character). -/
def parseSegments : Nat → List Char → Option Nat
| 0, _ => none
| fuel+1, l =>
  match parseNumber l with
  | none => none
  | some (num, rest) =>
    match parseUnit rest with
    | none => none
    | some (mult, rest2) =>
      let v := num.1 * mult + num.2.1 * mult / 10 ^ num.2.2
      if rest2 = [] then some v
      else
        match parseSegments fuel rest2 with
        | none => none
        | some w => some (v + w)

/-- Modelled from the spec: Go `time.ParseDuration` (standard library, not in
the sources) for unsigned duration strings such as `500ms` and `0.5s`: a
non-empty sequence of decimal-number/unit segments, yielding integer
nanoseconds. -/
def parseDuration (s : String) : Option Int :=
  if s = "" then none
  else (parseSegments s.length s.toList).map (fun n => (n : Int))

/-- Modelled from the spec: Go `strconv.Atoi` (standard library, not in the
sources): an optional sign followed by digits. -/
def atoi (s : String) : Option Int :=
  match s.toList with
  | [] => none
  | '-' :: rest =>
    if rest ≠ [] ∧ rest.all Char.isDigit then some (-(digitsVal rest : Int)) else none
  | '+' :: rest =>
    if rest ≠ [] ∧ rest.all Char.isDigit then some ((digitsVal rest : Int)) else none
  | l => if l.all Char.isDigit then some ((digitsVal l : Int)) else none

/-- From `src/client/register.go` `parseTimeout`: a plain integer
(`strconv.Atoi`) is a number of seconds; any other value goes through
`time.ParseDuration`.  The result is nanoseconds. -/
def parseTimeout (val : String) : Except String Int :=
  match atoi val with
  | some secs => Except.ok (secs * 1000000000)
  | none =>
    match parseDuration val with
    | some d => Except.ok d
    | none => Except.error ("time: invalid duration " ++ val)

/-- From `src/client/register.go`: the message of the distinct timeout error,
embedding the timeout and the most recent underlying `CacheGetKey` error. -/
def timeoutErrMsg (timeoutStr e : String) : String :=
  "Error getting key from daemon (hit timeout after " ++ timeoutStr ++
    " seconds); check knox logs for details (most recent error: " ++ e ++ ")"

/-- From `src/client/register.go` `runRegister` (the `-g` branch): call
`CacheGetKey` once, then while it errors re-invoke it every
`registerRecheckTime` until a call succeeds or the timeout channel fires.
`poll i` is the outcome of the i-th `CacheGetKey` call; `budget` is how many
re-polls the timeout allows. -/
def registerGetLoop (poll : Nat → Except String Key) (timeoutStr : String) :
    Nat → Nat → Except String Key
| i, budget =>
  match poll i with
  | Except.ok k => Except.ok k
  | Except.error e =>
    match budget with
    | 0 => Except.error (timeoutErrMsg timeoutStr e)
    | b+1 => registerGetLoop poll timeoutStr (i+1) b

/-- From `src/client/register.go` `runRegister` (the `-g` branch): on success
the JSON-encoded key (`json.Marshal` abstracted as `marshal`) is printed. -/
def registerAndGet (poll : Nat → Except String Key) (marshal : Key → String)
    (timeoutStr : String) (budget : Nat) : Except String String :=
  (registerGetLoop poll timeoutStr 0 budget).map marshal

/-- When every poll up to the budget errors, the loop returns the timeout
error built from the error of the most recent poll. -/
theorem registerGetLoop_timeout (poll : Nat → Except String Key) (ts : String)
    (err : Nat → String) :
    ∀ (budget i : Nat), (∀ j, j ≤ budget → poll (i + j) = Except.error (err (i + j))) →
      registerGetLoop poll ts i budget = Except.error (timeoutErrMsg ts (err (i + budget))) := by
  intro budget
  induction budget with
  | zero =>
    intro i h
    have h0 := h 0 (Nat.le_refl 0)
    simp only [Nat.add_zero] at h0 ⊢
    unfold registerGetLoop
    rw [h0]
  | succ b ih =>
    intro i h
    have h0 := h 0 (Nat.zero_le _)
    simp only [Nat.add_zero] at h0
    unfold registerGetLoop
    rw [h0]
    have step := ih (i + 1) (fun j hj => by
      have := h (j + 1) (Nat.succ_le_succ hj)
      rwa [show i + (j + 1) = i + 1 + j by omega] at this)
    rwa [show i + 1 + b = i + (b + 1) by omega] at step

/-- When the n-th poll is the first success and it falls inside the budget,
the loop returns its key. -/
theorem registerGetLoop_success (poll : Nat → Except String Key) (ts : String) :
    ∀ (n i budget : Nat) (key : Key), n ≤ budget → poll (i + n) = Except.ok key →
      (∀ j, j < n → ∃ e, poll (i + j) = Except.error e) →
      registerGetLoop poll ts i budget = Except.ok key := by
  intro n
  induction n with
  | zero =>
    intro i budget key _ hok _
    simp only [Nat.add_zero] at hok
    unfold registerGetLoop
    rw [hok]
  | succ n ih =>
    intro i budget key hle hok hfail
    obtain ⟨e, he⟩ := hfail 0 (Nat.succ_pos n)
    simp only [Nat.add_zero] at he
    obtain ⟨b, rfl⟩ : ∃ b, budget = b + 1 :=
      ⟨budget - 1, by omega⟩
    unfold registerGetLoop
    rw [he]
    exact ih (i + 1) b key (by omega)
      (by rwa [show i + 1 + n = i + (n + 1) by omega])
      (fun j hj => by
        have := hfail (j + 1) (Nat.succ_lt_succ hj)
        rwa [show i + (j + 1) = i + 1 + j by omega] at this)

/-- C9: `register -g` polls `CacheGetKey` (every `registerRecheckTime`,
10ms) until a call succeeds or the caller-specified timeout elapses; the
timeout string parses a plain integer as seconds and accepts duration
strings such as `500ms` and `0.5s` (default flag value `5s`); on timeout a
distinct timeout error embeds the most recent underlying error, and on
success the JSON-encoded key is produced. -/
theorem C9_register_and_get (poll : Nat → Except String Key) (marshal : Key → String)
    (ts : String) :
    parseTimeout "5" = Except.ok 5000000000 ∧
    parseTimeout "5s" = Except.ok 5000000000 ∧
    parseTimeout "0.5s" = Except.ok 500000000 ∧
    parseTimeout "500ms" = Except.ok 500000000 ∧
    registerRecheckTime = 10000000 ∧
    (∀ (budget : Nat) (err : Nat → String),
      (∀ i, i ≤ budget → poll i = Except.error (err i)) →
      registerAndGet poll marshal ts budget =
        Except.error (timeoutErrMsg ts (err budget))) ∧
    (∀ (n budget : Nat) (key : Key), n ≤ budget → poll n = Except.ok key →
      (∀ j, j < n → ∃ e, poll j = Except.error e) →
      registerAndGet poll marshal ts budget = Except.ok (marshal key)) := by
  refine ⟨by rfl, by rfl, by rfl, by rfl, rfl, ?_, ?_⟩
  · intro budget err h
    unfold registerAndGet
    rw [registerGetLoop_timeout poll ts err budget 0
      (fun j hj => by simpa using h j hj)]
    rw [Nat.zero_add]
    rfl
  · intro n budget key hle hok hfail
    unfold registerAndGet
    rw [registerGetLoop_success poll ts n 0 budget key hle (by simpa using hok)
      (fun j hj => by simpa using hfail j hj)]
    rfl

/-- C9 witness: with a poll sequence failing twice and succeeding on the
third call inside a budget of five re-polls, `register -g` produces the
JSON-encoded key. -/
theorem C9_register_and_get_witness :
    registerAndGet
        (fun i => if i < 2 then Except.error "Knox key file err" else Except.ok badCachedKey)
        (fun k => k.id) "5s" 5
      = Except.ok "k1" :=
  (C9_register_and_get
      (fun i => if i < 2 then Except.error "Knox key file err" else Except.ok badCachedKey)
      (fun k => k.id) "5s").2.2.2.2.2.2 2 5 badCachedKey (by omega) (by norm_num)
    (fun j hj => ⟨"Knox key file err", by simp [hj]⟩)

end Knox
